import Mathlib

/-
Verification development for `delphos-to-google-csv.py`.

The script reconciles roster records exported from a school administrative
system ("Delphos") against a snapshot of existing directory accounts
("Google"), generating login identifiers for new records and resolving
identifier collisions.  The definitions below are a shallow embedding of
the relevant Python functions, translated line by line from the source:

  * `remove_accent` / `remove_all_accents`  (source lines 141-147)
  * `build_email`                            (`Teacher._build_email` lines 254-257,
                                              `Student._build_email` lines 284-290)
  * `update_email` and the regex machinery   (`SchoolPerson._email_regex` line 152,
                                              `SchoolPerson.update_email` lines 178-179,
                                              `Teacher._new_user_name_email` lines 259-266,
                                              `Student._new_user_name_email` lines 292-300)
  * `change_email_if_needed`                 (lines 352-358)
  * `create_single_reference`                (lines 223-242)
  * `generate_lost_users`                    (lines 336-350)
  * `generate_new_students` and its loop     (lines 378-414)
  * `from_google_csv` / `generate_person_from_google` (lines 181-191, 464-477)

Modelling conventions:
  * Python sets of `SchoolPerson` objects use object identity (the class
    defines no `__eq__` / `__hash__`); each modelled person carries a `pid`
    field standing for its object identity, and set membership is `pid`
    membership.  Python sets and dicts are modelled as lists; a dict
    comprehension is modelled by its insertion-ordered key list
    (`dictKeys`) together with last-write-wins lookup (`lastByName`).
  * The mutable set `all_emails` is modelled as an explicitly threaded
    `List String` whose membership relation agrees with the Python set.
  * Fallible code returns `Except Err`; `Err.fuelOut` marks exhaustion of
    the explicit fuel that stands in for the unbounded `while` loop of
    `change_email_if_needed`.
  * `random_number_only_password` is pure randomness with no influence on
    any reconciliation result, so the `password` attribute is not modelled.
-/

/-- source constant `INVALID_CHARACTERS` (line 39): the accented characters
recognised by `remove_accent`. -/
def INVALID_CHARACTERS : List Char := "áéíóúñÁÉÍÓÚÑ".data

/-- source constant `REPLACEMENT_CHARACTERS` (line 40). -/
def REPLACEMENT_CHARACTERS : List Char := "aeiounAEIOUN".data

/-- source `remove_accent` (lines 141-144): replace a character listed in
`INVALID_CHARACTERS` by the character at the same index of
`REPLACEMENT_CHARACTERS`; any other character passes through. -/
def remove_accent (letter : Char) : Char :=
  match INVALID_CHARACTERS.indexOf? letter with
  | some i => REPLACEMENT_CHARACTERS.getD i letter
  | none => letter

/-- source `remove_all_accents` (lines 146-147). -/
def remove_all_accents (word : String) : String :=
  String.mk (word.data.map remove_accent)

/-- Python `str.lower`, restricted to the character repertoire the program
manipulates: ASCII letters plus the accented table of
`INVALID_CHARACTERS`.  Characters outside that repertoire are returned
unchanged. -/
def pyLower (c : Char) : Char :=
  if 65 ≤ c.toNat ∧ c.toNat ≤ 90 then Char.ofNat (c.toNat + 32)
  else if c = 'Á' then 'á'
  else if c = 'É' then 'é'
  else if c = 'Í' then 'í'
  else if c = 'Ó' then 'ó'
  else if c = 'Ú' then 'ú'
  else if c = 'Ñ' then 'ñ'
  else c

/-- whitespace recognised by Python `str.split()` (ASCII part). -/
def pyIsSpace (c : Char) : Bool :=
  c = ' ' || c = '\t' || c = '\n' || c = '\r' || c.toNat = 11 || c.toNat = 12

/-- accumulator pass of `pyTokens`; the accumulator holds the reversed
characters of the token being read. -/
def pyTokensAux : List Char → List Char → List String
  | [], acc => if acc = [] then [] else [String.mk acc.reverse]
  | c :: cs, acc =>
    if pyIsSpace c then
      if acc = [] then pyTokensAux cs []
      else String.mk acc.reverse :: pyTokensAux cs []
    else pyTokensAux cs (c :: acc)

/-- Python `str.split()` with no argument: split on whitespace runs and
drop empty pieces. -/
def pyTokens (s : String) : List String :=
  pyTokensAux s.data []

/-- Python slice `s[-2:]`: the last two characters when the string has at
least two, otherwise the whole string. -/
def lastTwo (s : String) : String :=
  String.mk (s.data.drop (s.data.length - 2))

/-- class tag of a `SchoolPerson`: the script only ever instantiates the
two subclasses `Teacher` and `Student`. -/
inductive Role where
  | teacher
  | student
  deriving DecidableEq

/-- model of a `SchoolPerson` object (lines 149-208 and subclasses).
`pid` stands for Python object identity (the class defines no `__eq__`,
so sets hash by identity).  The generated password is not modelled. -/
structure Person where
  pid : Nat
  role : Role
  firstname : String
  lastname : String
  email : Option String := none
  orgPathUnit : Option String := none
  isLost : Bool := false
  course : Option String := none
  enrollmentId : Option String := none
  deriving DecidableEq

/-- source line 159: `self.fullname = f"{self.firstname} {self.lastname}"`. -/
def Person.fullname (p : Person) : String :=
  p.firstname ++ " " ++ p.lastname

/-- failure modes of the embedded fragments.  `incorrectCsv` carries the
column count like `IncorrectCsvValueError`; `indexError`, `valueError` and
`typeError` stand for the homonymous Python exceptions; `fuelOut` marks
exhausted fuel of the modelled `while` loop. -/
inductive Err where
  | incorrectCsv (cols : Nat)
  | indexError
  | valueError
  | typeError
  | fuelOut
  deriving DecidableEq

/-- source `Teacher._build_email` (lines 254-257) and
`Student._build_email` (lines 284-290), dispatched on the class tag.
`lastname.split()[0]` raises `IndexError` when the last name has no
whitespace-delimited token, `firstname[0]` raises `IndexError` on an empty
first name, and subscripting a `None` enrollment id raises `TypeError`. -/
def build_email (domain : String) (p : Person) : Except Err String :=
  match pyTokens p.lastname with
  | [] => .error .indexError
  | first_surname :: _ =>
    match p.firstname.data with
    | [] => .error .indexError
    | c :: _ =>
      let user_name :=
        remove_all_accents (String.mk (pyLower c :: first_surname.data.map pyLower))
      match p.role with
      | .teacher => .ok (user_name ++ "@" ++ domain)
      | .student =>
        match p.enrollmentId with
        | none => .error .typeError
        | some eid => .ok (user_name ++ lastTwo eid ++ "@" ++ domain)

/-- the student identifier exactly as the specification words it: the
lowercased, diacritic-stripped first character of the first name, then the
lowercased, diacritic-stripped first whitespace token of the last name,
then the last two characters of the enrollment id, then `@` and the
domain. -/
def spec_student_identifier (firstname lastname enrollmentId domain : String) : String :=
  remove_all_accents (String.mk [pyLower (firstname.data.headD ' ')])
    ++ remove_all_accents (String.mk (((pyTokens lastname).headD "").data.map pyLower))
    ++ lastTwo enrollmentId ++ "@" ++ domain

/-- character class `[A-Za-z\.]` of `SchoolPerson._email_regex`
(source line 152). -/
def isLetterDot (c : Char) : Bool :=
  (65 ≤ c.toNat && c.toNat ≤ 90) || (97 ≤ c.toNat && c.toNat ≤ 122) || c.toNat == 46

/-- character class `\d` of `SchoolPerson._email_regex`. -/
def isAsciiDigit (c : Char) : Bool :=
  48 ≤ c.toNat && c.toNat ≤ 57

/-- match of the regex `([A-Za-z\.]+)(\d*)@` anchored at the head of the
character list.  Because the two character classes are disjoint and
neither contains `@`, the regex engine's leftmost-greedy match at a
position is exactly: the maximal run of letters and dots (nonempty), then
the maximal run of digits, then a literal `@`; no backtracking can
produce any other match here.  Returns the two groups and the characters
after the match. -/
def matchAt (l : List Char) : Option (List Char × List Char × List Char) :=
  let locals := l.takeWhile isLetterDot
  if locals.isEmpty then none
  else
    let rest1 := l.dropWhile isLetterDot
    let nums := rest1.takeWhile isAsciiDigit
    match rest1.dropWhile isAsciiDigit with
    | '@' :: rest => some (locals, nums, rest)
    | _ => none

/-- Python `re.sub` for `_email_regex` with a callable replacement: scan
left to right, replace every non-overlapping match, propagate any
exception thrown by the replacement.  The fuel argument (instantiated
with the length of the list, which bounds the number of scanning steps)
only makes the recursion structural. -/
def subAux (repl : List Char → List Char → Except Err (List Char)) :
    Nat → List Char → Except Err (List Char)
  | 0, l => .ok l
  | _ + 1, [] => .ok []
  | fuel + 1, c :: cs =>
    match matchAt (c :: cs) with
    | some (locals, nums, rest) =>
      match repl locals nums with
      | .error e => .error e
      | .ok r =>
        match subAux repl fuel rest with
        | .error e => .error e
        | .ok tail => .ok (r ++ tail)
    | none =>
      match subAux repl fuel cs with
      | .error e => .error e
      | .ok tail => .ok (c :: tail)

/-- Python `int` on a nonempty string of ASCII digits. -/
def digitsToNat (l : List Char) : Nat :=
  l.foldl (fun n c => 10 * n + (c.toNat - 48)) 0

/-- digit expansion of a natural number, most significant digit first;
the fuel (instantiated with the number itself, which bounds the number of
divisions by ten) only makes the recursion structural. -/
def natDigsAux : Nat → Nat → List Char
  | 0, _ => []
  | fuel + 1, n => if n = 0 then [] else natDigsAux fuel (n / 10) ++ [Char.ofNat (n % 10 + 48)]

/-- Python `str` on a natural number: its decimal rendering. -/
def natStr (n : Nat) : List Char :=
  if n = 0 then ['0'] else natDigsAux n n

/-- source `Student._new_user_name_email` (lines 292-300): increment the
trailing digit group by one and left-pad the result with `0` when it is
below ten.  `int` on the empty group raises `ValueError` (line 297,
`int(last_nums)` with `last_nums = ""`). -/
def student_new_user_name (locals nums : List Char) : Except Err (List Char) :=
  if nums.isEmpty then .error .valueError
  else
    let next_nums := digitsToNat nums + 1
    let rendered := if next_nums < 10 then '0' :: natStr next_nums else natStr next_nums
    .ok (locals ++ rendered ++ ['@'])

/-- source `Teacher._new_user_name_email` (lines 259-266).  When the digit
group is nonempty the source computes the f-string
`f"{main_user_name}{int(last_nums) + 1}@"` on line 265 but discards it
(the statement has no `return`), so the method always returns
`f"{main_user_name}2@"`. -/
def teacher_new_user_name (locals _nums : List Char) : Except Err (List Char) :=
  .ok (locals ++ ['2', '@'])

/-- source `SchoolPerson.update_email` (lines 178-179):
`self.email = self._email_regex.sub(self._new_user_name_email, self.email)`,
with the replacement dispatched on the person's class. -/
def update_email (r : Role) (email : String) : Except Err String :=
  let repl := match r with
    | .teacher => teacher_new_user_name
    | .student => student_new_user_name
  match subAux repl email.data.length email.data with
  | .error e => .error e
  | .ok l => .ok (String.mk l)

/-- source `change_email_if_needed` (lines 352-358): while the email is a
member of `all_emails`, rewrite it with `update_email`; on exit insert the
final email into the set and return.  The set is threaded explicitly; the
fuel stands for the unbounded `while` loop, `Err.fuelOut` marking the
traces on which the source loop has not yet exited. -/
def change_email_if_needed (r : Role) :
    Nat → String → List String → Except Err (String × List String)
  | 0, email, used =>
    if email ∈ used then .error .fuelOut else .ok (email, email :: used)
  | fuel + 1, email, used =>
    if email ∈ used then
      match update_email r email with
      | .error e => .error e
      | .ok email' => change_email_if_needed r fuel email' used
    else .ok (email, email :: used)

/-- model of a `SchoolContext` (lines 210-221).  `allGoogleUsers` is the
set `all_google_users`, represented as a list (iteration order of the
Python set is one fixed enumeration of it). -/
structure SchoolContext where
  fieldnames : List String
  allGoogleUsers : List Person
  domain : String
  orgPathUnit : String
  currentYear : String

/-- cached property `SchoolContext.all_emails` (lines 219-221):
`set([user.email for user in self.all_google_users])`.  It is first
accessed only after `create_single_reference` has replaced
`all_google_users`, so it is always computed from the replaced set; every
member of that set carries an email by then. -/
def all_emails (ctx : SchoolContext) : List String :=
  ctx.allGoogleUsers.filterMap Person.email

/-- lookup in a Python dict comprehension `{u.fullname: u for u in users}`:
on duplicate names the later entry wins. -/
def lastByName (users : List Person) (name : String) : Option Person :=
  (users.filter (fun u => u.fullname == name)).getLast?

/-- key enumeration of a Python dict built from a list of keys: distinct
keys in insertion (first-occurrence) order.  The `seen` accumulator makes
the recursion structural. -/
def dictKeysAux : List String → List String → List String
  | [], _ => []
  | n :: ns, seen =>
    if n ∈ seen then dictKeysAux ns seen else n :: dictKeysAux ns (n :: seen)

/-- insertion-ordered distinct keys of a Python dict whose keys were
inserted in the order of the given list. -/
def dictKeys (l : List String) : List String :=
  dictKeysAux l []

/-- effect of `create_single_reference` (lines 223-242) on one Delphos
record: the record `base = name_delphos_users[google_name]` — the last
record carrying its full name, when that name also names a Google
account — receives the Google account's email and organizational path
(lines 233-235); every other record is untouched. -/
def updDelphos (googleUsers delphosUsers : List Person) (d : Person) : Person :=
  match lastByName googleUsers d.fullname, lastByName delphosUsers d.fullname with
  | some g, some d0 =>
    if d0.pid = d.pid then { d with email := g.email, orgPathUnit := g.orgPathUnit } else d
  | _, _ => d

/-- the set `same_ref_users` built by `create_single_reference`
(lines 226-242): for every distinct Google full name, either the matching
Delphos record (updated, added by reference on line 237) or the Google
account marked lost (lines 239-240). -/
def csr_google (googleUsers delphosUsers : List Person) : List Person :=
  (dictKeys (googleUsers.map Person.fullname)).filterMap (fun n =>
    match lastByName delphosUsers n with
    | some d0 => some (updDelphos googleUsers delphosUsers d0)
    | none => (lastByName googleUsers n).map (fun g => { g with isLost := true }))

/-- source `SchoolContext.create_single_reference` (lines 223-242): returns
the context with `all_google_users` replaced by `same_ref_users`, together
with the Delphos list as mutated by the name matching. -/
def create_single_reference (ctx : SchoolContext) (delphosUsers : List Person) :
    SchoolContext × List Person :=
  ({ ctx with allGoogleUsers := csr_google ctx.allGoogleUsers delphosUsers },
   delphosUsers.map (updDelphos ctx.allGoogleUsers delphosUsers))

/-- source `generate_lost_users` (lines 336-350): with an empty `users`
list return immediately; otherwise collect every Google account of the
same class as `users[0]` whose `is_lost` flag is set, relocating its
organizational path under the given suffix. -/
def generate_lost_users (ctx : SchoolContext) (users : List Person) (org_path : String) :
    List Person :=
  match users with
  | [] => []
  | u :: _ =>
    (ctx.allGoogleUsers.filter (fun g => g.role == u.role && g.isLost)).map
      (fun g => { g with orgPathUnit := some (ctx.orgPathUnit ++ org_path) })

/-- the list comprehension of `generate_new_students` (line 395) and the
membership test of `generate_new_teachers` (line 381):
`student not in context.all_google_users`, which — `SchoolPerson` defining
no `__eq__` — is membership by object identity. -/
def new_filter (googleUsers : List Person) (users : List Person) : List Person :=
  users.filter (fun u => !(googleUsers.any (fun g => g.pid == u.pid)))

/-- per-record body shared by `generate_new_teachers` (lines 380-387) and
`generate_new_students` (lines 397-407): set the organizational path,
generate the account attributes (the email of `_build_email`; the random
password is not modelled), then run `change_email_if_needed` against the
threaded email set. -/
def process_new_users (domain full_org_path : String) (fuel : Nat) :
    List Person → List String → Except Err (List Person × List String)
  | [], used => .ok ([], used)
  | p :: ps, used =>
    match build_email domain p with
    | .error e => .error e
    | .ok e0 =>
      match change_email_if_needed p.role fuel e0 used with
      | .error e => .error e
      | .ok (email', used') =>
        match process_new_users domain full_org_path fuel ps used' with
        | .error e => .error e
        | .ok (rest, used'') =>
          .ok ({ p with orgPathUnit := some full_org_path, email := some email' } :: rest, used'')

/-- source `generate_new_students` (lines 394-414): filter the records not
yet present in `all_google_users`, then process each against the email
set. -/
def generate_new_students (ctx : SchoolContext) (course_delphos_students : List Person)
    (org_path : String) (fuel : Nat) (used : List String) :
    Except Err (List Person × List String) :=
  process_new_users ctx.domain (ctx.orgPathUnit ++ org_path) fuel
    (new_filter ctx.allGoogleUsers course_delphos_students) used

/-- source constant `MINIMUM_ROWS_GOOGLE_CSV` (line 44). -/
def MINIMUM_ROWS_GOOGLE_CSV : Nat := 4

/-- source constant `MAXIMUM_COLS_GOOGLE_CSV` (line 45). -/
def MAXIMUM_COLS_GOOGLE_CSV : Nat := 35

/-- source `SchoolPerson.from_google_csv` (lines 181-191): reject rows of
fewer than `MINIMUM_ROWS_GOOGLE_CSV` columns with an error carrying the
column count, then read columns 0, 1, 2 and 5 (the unguarded access to
column 5 raises `IndexError` on rows of 4 or 5 columns).  The object
identity of the freshly created person is chosen by the caller; the model
fixes `pid := 0`. -/
def from_google_csv (r : Role) (row : List String) : Except Err Person :=
  if row.length < MINIMUM_ROWS_GOOGLE_CSV then .error (.incorrectCsv row.length)
  else
    match row.get? 0, row.get? 1, row.get? 2, row.get? 5 with
    | some c0, some c1, some c2, some c5 =>
      .ok { pid := 0, role := r, firstname := c0.trim, lastname := c1.trim,
            email := some c2, orgPathUnit := some c5 }
    | _, _, _, _ => .error .indexError

/-- source `generate_person_from_google` (lines 464-477): reject rows whose
column count differs from `MAXIMUM_COLS_GOOGLE_CSV` (the raised error is
caught and turned into `sys.exit(1)`, modelled as the error result), then
dispatch on whether the last segment of the placement column is the
literal `Profesores`. -/
def generate_person_from_google (row : List String) : Except Err Person :=
  if row.length ≠ MAXIMUM_COLS_GOOGLE_CSV then .error (.incorrectCsv row.length)
  else
    if ((row.getD 5 "").splitOn "/").getLastD "" = "Profesores" then
      from_google_csv .teacher row
    else
      from_google_csv .student row

/-- an email string assembled from a local part, a digit suffix and a
domain: the shape `([A-Za-z\.]+)(\d*)@domain` manipulated by the
collision-resolution regex. -/
def mkEmail (base sfx dom : List Char) : String :=
  String.mk (base ++ sfx ++ '@' :: dom)

/-- the `rendered` digit group produced by `Student._new_user_name_email`
(lines 297-299): the decimal rendering of the incremented suffix,
left-padded with `0` below ten. -/
def padRendered (n : Nat) : List Char :=
  if n < 10 then '0' :: natStr n else natStr n

theorem isAsciiDigit_not_isLetterDot {c : Char} (h : isAsciiDigit c = true) :
    isLetterDot c = false := by
  simp only [isAsciiDigit, Bool.and_eq_true, decide_eq_true_eq] at h
  simp only [isLetterDot, Bool.or_eq_false_iff, Bool.and_eq_false_iff,
    decide_eq_false_iff_not, not_le, beq_eq_false_iff_ne, ne_eq]
  omega

theorem takeWhile_append_of_all {p : Char → Bool} {xs : List Char} (ys : List Char)
    (h : ∀ c ∈ xs, p c = true) :
    (xs ++ ys).takeWhile p = xs ++ ys.takeWhile p := by
  induction xs with
  | nil => simp
  | cons a l ih =>
    simp only [List.cons_append, List.takeWhile_cons, h a (List.mem_cons_self a l), if_true]
    rw [ih (fun c hc => h c (List.mem_cons_of_mem a hc))]

theorem dropWhile_append_of_all {p : Char → Bool} {xs : List Char} (ys : List Char)
    (h : ∀ c ∈ xs, p c = true) :
    (xs ++ ys).dropWhile p = ys.dropWhile p := by
  induction xs with
  | nil => simp
  | cons a l ih =>
    simp only [List.cons_append, List.dropWhile_cons, h a (List.mem_cons_self a l), if_true]
    exact ih (fun c hc => h c (List.mem_cons_of_mem a hc))

theorem isLetterDot_at : isLetterDot '@' = false := by decide

theorem isAsciiDigit_at : isAsciiDigit '@' = false := by decide

theorem takeWhile_sfx_at {sfx dom : List Char} (hsc : ∀ c ∈ sfx, isAsciiDigit c = true) :
    (sfx ++ '@' :: dom).takeWhile isLetterDot = [] := by
  cases sfx with
  | nil => simp [List.takeWhile_cons, isLetterDot_at]
  | cons s ss =>
    have : isLetterDot s = false :=
      isAsciiDigit_not_isLetterDot (hsc s (List.mem_cons_self s ss))
    simp [List.takeWhile_cons, this]

theorem dropWhile_sfx_at {sfx dom : List Char} (hsc : ∀ c ∈ sfx, isAsciiDigit c = true) :
    (sfx ++ '@' :: dom).dropWhile isLetterDot = sfx ++ '@' :: dom := by
  cases sfx with
  | nil => simp [List.dropWhile_cons, isLetterDot_at]
  | cons s ss =>
    have : isLetterDot s = false :=
      isAsciiDigit_not_isLetterDot (hsc s (List.mem_cons_self s ss))
    simp [List.dropWhile_cons, this]

theorem matchAt_exact {base sfx dom : List Char} (hb : base ≠ [])
    (hbc : ∀ c ∈ base, isLetterDot c = true) (hsc : ∀ c ∈ sfx, isAsciiDigit c = true) :
    matchAt (base ++ sfx ++ '@' :: dom) = some (base, sfx, dom) := by
  have hassoc : base ++ sfx ++ '@' :: dom = base ++ (sfx ++ '@' :: dom) :=
    List.append_assoc base sfx ('@' :: dom)
  have htw : (base ++ sfx ++ '@' :: dom).takeWhile isLetterDot = base := by
    rw [hassoc, takeWhile_append_of_all _ hbc, takeWhile_sfx_at hsc, List.append_nil]
  have hdw : (base ++ sfx ++ '@' :: dom).dropWhile isLetterDot = sfx ++ '@' :: dom := by
    rw [hassoc, dropWhile_append_of_all _ hbc, dropWhile_sfx_at hsc]
  have htw2 : (sfx ++ '@' :: dom).takeWhile isAsciiDigit = sfx := by
    rw [takeWhile_append_of_all _ hsc]
    simp [List.takeWhile_cons, isAsciiDigit_at]
  have hdw2 : (sfx ++ '@' :: dom).dropWhile isAsciiDigit = '@' :: dom := by
    rw [dropWhile_append_of_all _ hsc]
    simp [List.dropWhile_cons, isAsciiDigit_at]
  unfold matchAt
  simp only [htw, hdw, htw2, hdw2, List.isEmpty_eq_false.mpr hb, Bool.false_eq_true, if_false]

theorem matchAt_at_mem {l L D rest : List Char} (h : matchAt l = some (L, D, rest)) :
    '@' ∈ l := by
  simp only [matchAt] at h
  split at h
  · exact absurd h (by simp)
  · split at h
    · rename_i heq
      have h1 : '@' ∈ (l.dropWhile isLetterDot).dropWhile isAsciiDigit := by
        rw [heq]; exact List.mem_cons_self _ _
      exact (List.dropWhile_sublist isLetterDot).mem
        ((List.dropWhile_sublist isAsciiDigit).mem h1)
    · exact absurd h (by simp)

theorem subAux_no_at {repl : List Char → List Char → Except Err (List Char)} :
    ∀ (fuel : Nat) (l : List Char), '@' ∉ l → subAux repl fuel l = .ok l := by
  intro fuel
  induction fuel with
  | zero => intro l _; rfl
  | succ n ih =>
    intro l hl
    cases l with
    | nil => rfl
    | cons c cs =>
      have hm : matchAt (c :: cs) = none := by
        cases h : matchAt (c :: cs) with
        | none => rfl
        | some x =>
          obtain ⟨L, D, rest⟩ := x
          exact absurd (matchAt_at_mem h) hl
      have hcs : '@' ∉ cs := fun h => hl (List.mem_cons_of_mem c h)
      simp only [subAux, hm, ih cs hcs]

theorem subAux_single_ok {repl : List Char → List Char → Except Err (List Char)}
    {base sfx dom r : List Char} {fuel : Nat} (hb : base ≠ [])
    (hbc : ∀ c ∈ base, isLetterDot c = true) (hsc : ∀ c ∈ sfx, isAsciiDigit c = true)
    (hdom : '@' ∉ dom) (hf : 1 ≤ fuel) (hr : repl base sfx = .ok r) :
    subAux repl fuel (base ++ sfx ++ '@' :: dom) = .ok (r ++ dom) := by
  cases fuel with
  | zero => omega
  | succ n =>
    cases base with
    | nil => exact absurd rfl hb
    | cons b bs =>
      have hcons : (b :: bs) ++ sfx ++ '@' :: dom = b :: (bs ++ sfx ++ '@' :: dom) := by
        simp
      rw [hcons]
      simp only [subAux]
      have hm := @matchAt_exact (b :: bs) sfx dom hb hbc hsc
      rw [hcons] at hm
      simp only [hm, hr, subAux_no_at n dom hdom]

theorem subAux_single_error {repl : List Char → List Char → Except Err (List Char)}
    {base sfx dom : List Char} {e : Err} {fuel : Nat} (hb : base ≠ [])
    (hbc : ∀ c ∈ base, isLetterDot c = true) (hsc : ∀ c ∈ sfx, isAsciiDigit c = true)
    (hf : 1 ≤ fuel) (hr : repl base sfx = .error e) :
    subAux repl fuel (base ++ sfx ++ '@' :: dom) = .error e := by
  cases fuel with
  | zero => omega
  | succ n =>
    cases base with
    | nil => exact absurd rfl hb
    | cons b bs =>
      have hcons : (b :: bs) ++ sfx ++ '@' :: dom = b :: (bs ++ sfx ++ '@' :: dom) := by
        simp
      rw [hcons]
      simp only [subAux]
      have hm := @matchAt_exact (b :: bs) sfx dom hb hbc hsc
      rw [hcons] at hm
      simp only [hm, hr]

theorem digitsToNat_append_singleton (xs : List Char) (c : Char) :
    digitsToNat (xs ++ [c]) = 10 * digitsToNat xs + (c.toNat - 48) := by
  simp [digitsToNat, List.foldl_append]

theorem natDigsAux_spec : ∀ (fuel n : Nat), n ≤ fuel →
    digitsToNat (natDigsAux fuel n) = n ∧ ∀ c ∈ natDigsAux fuel n, isAsciiDigit c = true := by
  intro fuel
  induction fuel with
  | zero =>
    intro n hn
    have : n = 0 := Nat.le_zero.mp hn
    subst this
    exact ⟨rfl, by intro c hc; cases hc⟩
  | succ m ih =>
    intro n hn
    by_cases h0 : n = 0
    · subst h0
      exact ⟨rfl, by intro c hc; simp [natDigsAux] at hc⟩
    · have hdiv : n / 10 ≤ m := by
        have := Nat.div_lt_self (Nat.pos_of_ne_zero h0) (by norm_num : 1 < 10)
        omega
      obtain ⟨ihv, ihd⟩ := ih (n / 10) hdiv
      have hmod : n % 10 < 10 := Nat.mod_lt _ (by norm_num)
      have hchar : (Char.ofNat (n % 10 + 48)).toNat = n % 10 + 48 ∧
          isAsciiDigit (Char.ofNat (n % 10 + 48)) = true := by
        set d := n % 10 with hd
        interval_cases d <;> exact ⟨by decide, by decide⟩
      constructor
      · simp only [natDigsAux, h0, if_false]
        rw [digitsToNat_append_singleton, ihv, hchar.1]
        omega
      · simp only [natDigsAux, h0, if_false]
        intro c hc
        rcases List.mem_append.mp hc with hc | hc
        · exact ihd c hc
        · rw [List.mem_singleton.mp hc]
          exact hchar.2

theorem natStr_spec (n : Nat) :
    digitsToNat (natStr n) = n ∧ (∀ c ∈ natStr n, isAsciiDigit c = true) ∧ natStr n ≠ [] := by
  by_cases h0 : n = 0
  · subst h0
    refine ⟨by decide, ?_, by decide⟩
    intro c hc
    simp [natStr] at hc
    rw [hc]; decide
  · obtain ⟨hv, hd⟩ := natDigsAux_spec n n (le_refl n)
    have hne : natStr n ≠ [] := by
      simp only [natStr, h0, if_false]
      cases n with
      | zero => exact absurd rfl h0
      | succ m => simp [natDigsAux, h0]
    refine ⟨?_, ?_, hne⟩
    · simp only [natStr, h0, if_false]; exact hv
    · simp only [natStr, h0, if_false]; exact hd

theorem digitsToNat_cons_zero (xs : List Char) : digitsToNat ('0' :: xs) = digitsToNat xs := rfl

theorem padRendered_spec (n : Nat) :
    digitsToNat (padRendered n) = n ∧ (∀ c ∈ padRendered n, isAsciiDigit c = true) ∧
      padRendered n ≠ [] := by
  obtain ⟨hv, hd, hne⟩ := natStr_spec n
  by_cases h10 : n < 10
  · refine ⟨?_, ?_, by simp [padRendered, h10]⟩
    · simp only [padRendered, h10, if_true]
      rw [digitsToNat_cons_zero]; exact hv
    · simp only [padRendered, h10, if_true]
      intro c hc
      rcases List.mem_cons.mp hc with hc | hc
      · rw [hc]; decide
      · exact hd c hc
  · simp only [padRendered, h10, if_false]
    exact ⟨hv, hd, hne⟩

theorem mkEmail_sfx_inj {base sfx1 sfx2 dom : List Char}
    (h : mkEmail base sfx1 dom = mkEmail base sfx2 dom) : sfx1 = sfx2 := by
  have hdata : base ++ sfx1 ++ '@' :: dom = base ++ sfx2 ++ '@' :: dom := congrArg String.data h
  rw [List.append_assoc, List.append_assoc] at hdata
  have h2 : sfx1 ++ '@' :: dom = sfx2 ++ '@' :: dom := List.append_cancel_left hdata
  have hlen : sfx1.length = sfx2.length := by
    have := congrArg List.length h2
    simp at this
    omega
  exact (List.append_inj h2 hlen).1

theorem update_email_student_ok {base sfx dom : List Char} (hb : base ≠ [])
    (hbc : ∀ c ∈ base, isLetterDot c = true) (hsne : sfx ≠ [])
    (hsc : ∀ c ∈ sfx, isAsciiDigit c = true) (hdom : '@' ∉ dom) :
    update_email .student (mkEmail base sfx dom) =
      .ok (mkEmail base (padRendered (digitsToNat sfx + 1)) dom) := by
  have hrepl : student_new_user_name base sfx =
      .ok (base ++ padRendered (digitsToNat sfx + 1) ++ ['@']) := by
    simp only [student_new_user_name, List.isEmpty_eq_false.mpr hsne, Bool.false_eq_true,
      if_false, padRendered]
  have hfuel : 1 ≤ (mkEmail base sfx dom).data.length := by
    cases base with
    | nil => exact absurd rfl hb
    | cons b bs => simp [mkEmail]
  have hsub := @subAux_single_ok student_new_user_name base sfx dom
    (base ++ padRendered (digitsToNat sfx + 1) ++ ['@']) (mkEmail base sfx dom).data.length
    hb hbc hsc hdom hfuel hrepl
  show (match subAux student_new_user_name (mkEmail base sfx dom).data.length
      (mkEmail base sfx dom).data with
    | Except.error e => Except.error e
    | Except.ok l => Except.ok (String.mk l)) = _
  have hdata : (mkEmail base sfx dom).data = base ++ sfx ++ '@' :: dom := rfl
  rw [hdata] at hsub ⊢
  rw [hsub]
  simp only [mkEmail, Except.ok.injEq]
  apply congrArg String.mk
  simp [List.append_assoc]

theorem update_email_student_nosfx {base dom : List Char} (hb : base ≠ [])
    (hbc : ∀ c ∈ base, isLetterDot c = true) :
    update_email .student (mkEmail base [] dom) = .error .valueError := by
  have hrepl : student_new_user_name base [] = .error .valueError := rfl
  have hfuel : 1 ≤ (mkEmail base [] dom).data.length := by
    cases base with
    | nil => exact absurd rfl hb
    | cons b bs => simp [mkEmail]
  have hsub := @subAux_single_error student_new_user_name base [] dom Err.valueError
    (mkEmail base [] dom).data.length hb hbc (by intro c hc; cases hc) hfuel hrepl
  show (match subAux student_new_user_name (mkEmail base [] dom).data.length
      (mkEmail base [] dom).data with
    | Except.error e => Except.error e
    | Except.ok l => Except.ok (String.mk l)) = _
  have hdata : (mkEmail base [] dom).data = base ++ [] ++ '@' :: dom := rfl
  rw [hdata] at hsub ⊢
  rw [hsub]

theorem change_email_ok {r : Role} :
    ∀ {fuel : Nat} {e e' : String} {used used' : List String},
      change_email_if_needed r fuel e used = .ok (e', used') →
      e' ∉ used ∧ used' = e' :: used := by
  intro fuel
  induction fuel with
  | zero =>
    intro e e' used used' h
    simp only [change_email_if_needed] at h
    split at h
    · cases h
    · rename_i hmem
      obtain ⟨he, hu⟩ := Prod.mk.injEq .. ▸ (Except.ok.injEq .. ▸ h)
      exact ⟨he ▸ hmem, hu ▸ he ▸ rfl⟩
  | succ n ih =>
    intro e e' used used' h
    simp only [change_email_if_needed] at h
    split at h
    · cases hupd : update_email r e with
      | error err => rw [hupd] at h; cases h
      | ok e1 => rw [hupd] at h; exact ih h
    · rename_i hmem
      obtain ⟨he, hu⟩ := Prod.mk.injEq .. ▸ (Except.ok.injEq .. ▸ h)
      exact ⟨he ▸ hmem, hu ▸ he ▸ rfl⟩

theorem change_email_exit {r : Role} {e : String} {used : List String} (he : e ∉ used) :
    ∀ fuel, change_email_if_needed r fuel e used = .ok (e, e :: used) := by
  intro fuel
  cases fuel with
  | zero => simp [change_email_if_needed, he]
  | succ n => simp [change_email_if_needed, he]

theorem change_email_reach {r : Role} {used : List String} :
    ∀ (j : Nat) (E : Nat → String), (∀ k, update_email r (E k) = .ok (E (k + 1))) →
      (∀ i < j, E i ∈ used) → E j ∉ used →
      change_email_if_needed r (j + 1) (E 0) used = .ok (E j, E j :: used) := by
  intro j
  induction j with
  | zero =>
    intro E _ _ hout
    exact change_email_exit hout 1
  | succ m ih =>
    intro E hstep hmem hout
    have h0 : E 0 ∈ used := hmem 0 (Nat.succ_pos m)
    show change_email_if_needed r (m + 1 + 1) (E 0) used = _
    simp only [change_email_if_needed, h0, if_true, hstep 0]
    exact ih (fun i => E (i + 1)) (fun k => hstep (k + 1))
      (fun i hi => hmem (i + 1) (Nat.succ_lt_succ hi)) hout

theorem exists_index_not_used (E : Nat → String) (hinj : Function.Injective E)
    (used : List String) : ∃ k, E k ∉ used := by
  by_contra hall
  push_neg at hall
  have hsub : Finset.image E (Finset.range (used.length + 1)) ⊆ used.toFinset := by
    intro x hx
    obtain ⟨k, _, hk⟩ := Finset.mem_image.mp hx
    rw [← hk]
    exact List.mem_toFinset.mpr (hall k)
  have hcard := Finset.card_le_card hsub
  rw [Finset.card_image_of_injective _ hinj, Finset.card_range] at hcard
  have := List.toFinset_card_le used
  omega

theorem student_loop_terminates {base sfx dom : List Char} (used : List String)
    (hb : base ≠ []) (hbc : ∀ c ∈ base, isLetterDot c = true) (hsne : sfx ≠ [])
    (hsc : ∀ c ∈ sfx, isAsciiDigit c = true) (hdom : '@' ∉ dom) :
    ∃ (n : Nat) (e' : String),
      change_email_if_needed .student n (mkEmail base sfx dom) used = .ok (e', e' :: used)
        ∧ e' ∉ used := by
  classical
  let E : Nat → String := fun k =>
    match k with
    | 0 => mkEmail base sfx dom
    | Nat.succ j => mkEmail base (padRendered (digitsToNat sfx + j + 1)) dom
  have hstep : ∀ k, update_email .student (E k) = .ok (E (k + 1)) := by
    intro k
    cases k with
    | zero =>
      show update_email .student (mkEmail base sfx dom) =
        .ok (mkEmail base (padRendered (digitsToNat sfx + 0 + 1)) dom)
      rw [update_email_student_ok hb hbc hsne hsc hdom]
    | succ j =>
      show update_email .student (mkEmail base (padRendered (digitsToNat sfx + j + 1)) dom) =
        .ok (mkEmail base (padRendered (digitsToNat sfx + (j + 1) + 1)) dom)
      obtain ⟨hval, hdig, hne⟩ := padRendered_spec (digitsToNat sfx + j + 1)
      rw [update_email_student_ok hb hbc hne hdig hdom, hval,
        show digitsToNat sfx + j + 1 + 1 = digitsToNat sfx + (j + 1) + 1 from by omega]
  have hinj : Function.Injective E := by
    intro i j hij
    cases i with
    | zero =>
      cases j with
      | zero => rfl
      | succ m =>
        exfalso
        have h : sfx = padRendered (digitsToNat sfx + m + 1) := mkEmail_sfx_inj hij
        have h2 := congrArg digitsToNat h
        rw [(padRendered_spec (digitsToNat sfx + m + 1)).1] at h2
        omega
    | succ m =>
      cases j with
      | zero =>
        exfalso
        have h : padRendered (digitsToNat sfx + m + 1) = sfx := mkEmail_sfx_inj hij
        have h2 := congrArg digitsToNat h
        rw [(padRendered_spec (digitsToNat sfx + m + 1)).1] at h2
        omega
      | succ m2 =>
        have h : padRendered (digitsToNat sfx + m + 1) =
            padRendered (digitsToNat sfx + m2 + 1) := mkEmail_sfx_inj hij
        have h2 := congrArg digitsToNat h
        rw [(padRendered_spec (digitsToNat sfx + m + 1)).1,
          (padRendered_spec (digitsToNat sfx + m2 + 1)).1] at h2
        omega
  obtain ⟨k, hk⟩ := exists_index_not_used E hinj used
  have hex : ∃ k, E k ∉ used := ⟨k, hk⟩
  have hout : E (Nat.find hex) ∉ used := Nat.find_spec hex
  have hmem : ∀ i < Nat.find hex, E i ∈ used := fun i hi => not_not.mp (Nat.find_min hex hi)
  exact ⟨Nat.find hex + 1, E (Nat.find hex),
    change_email_reach (Nat.find hex) E hstep hmem hout, hout⟩

/-- Claim C3, counterexample.  The claim states that a student identifier
whose local part has no trailing numeric suffix is rewritten with suffix
"01".  On the code, one collision-resolution step on such an identifier
raises `ValueError` instead (`int("")` on line 297), so `jperez@d` is not
rewritten to `jperez01@d`. -/
theorem claim_C3_counterexample :
    update_email .student "jperez@d" = .error .valueError
      ∧ update_email .student "jperez@d" ≠ .ok "jperez01@d" := by
  refine ⟨rfl, ?_⟩
  intro h
  rw [show update_email .student "jperez@d" = .error .valueError from rfl] at h
  cases h

/-- Claim C3, amended.  For every student identifier whose local part is
letters-and-dots followed by a nonempty trailing digit group, one
collision-resolution step increments the suffix by 1 and zero-pads the
result to two digits when it is under 10 (in particular suffix "03"
becomes "04" and suffix "9" becomes "10"); when the suffix is absent the
step fails with `ValueError` instead of producing suffix "01". -/
theorem claim_C3_amended :
    (∀ (base sfx dom : List Char), base ≠ [] → (∀ c ∈ base, isLetterDot c = true) →
      sfx ≠ [] → (∀ c ∈ sfx, isAsciiDigit c = true) → '@' ∉ dom →
      update_email .student (mkEmail base sfx dom) =
        .ok (mkEmail base (padRendered (digitsToNat sfx + 1)) dom))
    ∧ (∀ (base dom : List Char), base ≠ [] → (∀ c ∈ base, isLetterDot c = true) →
      update_email .student (mkEmail base [] dom) = .error .valueError)
    ∧ update_email .student "agarcia03@d" = .ok "agarcia04@d"
    ∧ update_email .student "agarcia9@d" = .ok "agarcia10@d" := by
  refine ⟨?_, ?_, rfl, rfl⟩
  · intro base sfx dom hb hbc hs hsc hdom
    exact update_email_student_ok hb hbc hs hsc hdom
  · intro base dom hb hbc
    exact update_email_student_nosfx hb hbc

/-- Claim C3, witness for the amended theorem at a concrete input: the
suffix "45" of `agarcia45@d` is incremented to "46". -/
theorem claim_C3_witness :
    "agarcia".data ≠ [] ∧
      update_email .student (mkEmail "agarcia".data "45".data "d".data) =
        .ok (mkEmail "agarcia".data (padRendered (digitsToNat "45".data + 1)) "d".data) :=
  ⟨by decide, claim_C3_amended.1 "agarcia".data "45".data "d".data (by decide) (by decide)
    (by decide) (by decide) (by decide)⟩

/-- Claim C4.  The teacher collision-rewrite rule of the code: the
incremented candidate computed on line 265 is discarded (the statement
lacks a `return`), so a local part with trailing digits is rewritten to
the local part followed by "2", not to the incremented suffix — the step
maps `agarcia45@d` to `agarcia2@d`, never to `agarcia46@d`, while a local
part with no digits is also rewritten to `agarcia2@d` as the claim says. -/
theorem claim_C4_behavior :
    update_email .teacher "agarcia45@d" = .ok "agarcia2@d"
      ∧ update_email .teacher "agarcia@d" = .ok "agarcia2@d"
      ∧ update_email .teacher "agarcia45@d" ≠ .ok "agarcia46@d" := by
  refine ⟨rfl, rfl, ?_⟩
  intro h
  rw [show update_email .teacher "agarcia45@d" = .ok "agarcia2@d" from rfl] at h
  exact absurd (Except.ok.inj h) (by decide)

/-- Claim C5, counterexample.  The claim states the collision-resolution
loop terminates for every person whose identifier matches the pattern
`([A-Za-z\.]+)(\d*)@`.  `jperez@d` matches it (empty digit group), yet
when it is already in use the loop's first rewrite raises `ValueError`,
so no amount of fuel makes the loop return: the loop never terminates
normally. -/
theorem claim_C5_counterexample :
    ¬ ∃ (n : Nat) (e' : String) (used' : List String),
      change_email_if_needed .student n "jperez@d" ["jperez@d"] = .ok (e', used') := by
  rintro ⟨n, e', used', h⟩
  have hmem : ("jperez@d" : String) ∈ ["jperez@d"] := List.mem_singleton.mpr rfl
  cases n with
  | zero =>
    simp only [change_email_if_needed, if_pos hmem] at h
    cases h
  | succ m =>
    simp only [change_email_if_needed, if_pos hmem] at h
    rw [show update_email .student "jperez@d" = .error .valueError from rfl] at h
    cases h

/-- Claim C5, amended.  For every student identifier whose local part is
letters-and-dots followed by a nonempty trailing digit suffix, and every
in-use set (with no `@` in the domain part), the collision-resolution
loop terminates; the returned identifier was not in the set at entry and
has been inserted into it. -/
theorem claim_C5_amended (base sfx dom : List Char) (used : List String) (hb : base ≠ [])
    (hbc : ∀ c ∈ base, isLetterDot c = true) (hsne : sfx ≠ [])
    (hsc : ∀ c ∈ sfx, isAsciiDigit c = true) (hdom : '@' ∉ dom) :
    ∃ (n : Nat) (e' : String),
      change_email_if_needed .student n (mkEmail base sfx dom) used = .ok (e', e' :: used)
        ∧ e' ∉ used :=
  student_loop_terminates used hb hbc hsne hsc hdom

/-- Claim C5, witness for the amended theorem at a concrete input:
resolution of `agarcia45@d` against an in-use set containing it. -/
theorem claim_C5_witness :
    "45".data ≠ [] ∧
      ∃ (n : Nat) (e' : String),
        change_email_if_needed .student n (mkEmail "agarcia".data "45".data "d".data)
            ["agarcia45@d"] = .ok (e', e' :: ["agarcia45@d"]) ∧ e' ∉ ["agarcia45@d"] :=
  ⟨by decide, claim_C5_amended "agarcia".data "45".data "d".data ["agarcia45@d"] (by decide)
    (by decide) (by decide) (by decide) (by decide)⟩

/-- Claim C10.  When the incoming roster list handed to
`generate_lost_users` is empty the pass returns immediately with the
empty list (source lines 339-340), whatever the context holds — in
particular even when `all_google_users` contains accounts whose `is_lost`
flag is set, none is relocated. -/
theorem claim_C10 (ctx : SchoolContext) (org_path : String) :
    generate_lost_users ctx [] org_path = [] := rfl

/-- Claim C2.  Partial correctness of the new-record processing loop: on
every run that completes, the identifiers assigned to the created records
are disjoint from the in-use set as it stood at call time, pairwise
distinct, and the final in-use set is exactly the call-time set extended
by the assigned identifiers one at a time, in processing order (each
resolved identifier is inserted before the next record is processed). -/
theorem claim_C2 :
    ∀ (domain full_org_path : String) (fuel : Nat) (ps created : List Person)
      (used used' : List String),
      process_new_users domain full_org_path fuel ps used = .ok (created, used') →
      (created.filterMap Person.email).Nodup
        ∧ (∀ e ∈ created.filterMap Person.email, e ∉ used)
        ∧ used' = (created.filterMap Person.email).reverse ++ used := by
  intro domain full_org_path fuel ps
  induction ps with
  | nil =>
    intro created used used' h
    simp only [process_new_users] at h
    obtain ⟨hc, hu⟩ := Prod.mk.injEq .. ▸ (Except.ok.injEq .. ▸ h)
    subst hc
    subst hu
    simp
  | cons p ps ih =>
    intro created used used' h
    simp only [process_new_users] at h
    cases hb : build_email domain p with
    | error e => rw [hb] at h; cases h
    | ok e0 =>
      simp only [hb] at h
      cases hc : change_email_if_needed p.role fuel e0 used with
      | error e => simp only [hc] at h; cases h
      | ok pair =>
        obtain ⟨e1, u1⟩ := pair
        simp only [hc] at h
        cases hrec : process_new_users domain full_org_path fuel ps u1 with
        | error e => simp only [hrec] at h; cases h
        | ok pair2 =>
          obtain ⟨rest, u2⟩ := pair2
          simp only [hrec] at h
          obtain ⟨hcreated, hused⟩ := Prod.mk.injEq .. ▸ (Except.ok.injEq .. ▸ h)
          subst hcreated
          subst hused
          obtain ⟨hnew, hu1⟩ := change_email_ok hc
          obtain ⟨ihnd, ihdisj, ihused⟩ := ih rest u1 u2 hrec
          have hfm : (({ p with orgPathUnit := some full_org_path, email := some e1 } ::
              rest).filterMap Person.email) = e1 :: rest.filterMap Person.email := by
            simp [List.filterMap_cons]
          rw [hfm]
          refine ⟨?_, ?_, ?_⟩
          · rw [List.nodup_cons]
            refine ⟨fun hmem => ?_, ihnd⟩
            have := ihdisj e1 hmem
            rw [hu1] at this
            exact this (List.mem_cons_self e1 used)
          · intro e he
            rcases List.mem_cons.mp he with he | he
            · rw [he]; exact hnew
            · intro hins
              exact ihdisj e he (hu1 ▸ List.mem_cons_of_mem e1 hins)
          · rw [ihused, hu1]
            simp [List.append_assoc]

/-- Claim C2, witness: a concrete completed run (one student colliding
with the snapshot email `agarcia45@d`, resolved to `agarcia46@d`) at which
the theorem's hypothesis holds by computation. -/
theorem claim_C2_witness :
    (List.filterMap Person.email
        [⟨11, .student, "Ana", "García", some "agarcia46@d", some "/Curso 2021-2022/1-A",
          false, some "1-A", some "2021/045"⟩]).Nodup
      ∧ (∀ e ∈ List.filterMap Person.email
          [⟨11, .student, "Ana", "García", some "agarcia46@d", some "/Curso 2021-2022/1-A",
            false, some "1-A", some "2021/045"⟩], e ∉ ["agarcia45@d"])
      ∧ ["agarcia46@d", "agarcia45@d"] =
          (List.filterMap Person.email
            [⟨11, .student, "Ana", "García", some "agarcia46@d", some "/Curso 2021-2022/1-A",
              false, some "1-A", some "2021/045"⟩]).reverse ++ ["agarcia45@d"] :=
  claim_C2 "d" "/Curso 2021-2022/1-A" 5
    [⟨11, .student, "Ana", "García", none, none, false, some "1-A", some "2021/045"⟩]
    [⟨11, .student, "Ana", "García", some "agarcia46@d", some "/Curso 2021-2022/1-A",
      false, some "1-A", some "2021/045"⟩]
    ["agarcia45@d"] ["agarcia46@d", "agarcia45@d"] (by rfl)

theorem remove_all_accents_cons (x : Char) (xs : List Char) :
    remove_all_accents (String.mk (x :: xs)) =
      remove_all_accents (String.mk [x]) ++ remove_all_accents (String.mk xs) := rfl

/-- Claim C7.  Student identifier generation: the accent table maps each
listed character to its unaccented counterpart and leaves every other
character unchanged, and for every student with a non-empty first name, a
last name with at least one whitespace token and an enrollment id of at
least two characters, `_build_email` produces exactly the identifier the
specification describes — in particular Ana García with enrollment id
2021/045 gets `agarcia45@` followed by the domain. -/
theorem claim_C7 :
    INVALID_CHARACTERS.map remove_accent = REPLACEMENT_CHARACTERS
    ∧ (∀ c : Char, c ∉ INVALID_CHARACTERS → remove_accent c = c)
    ∧ (∀ (p : Person) (domain eid : String), p.role = .student → p.firstname ≠ "" →
        pyTokens p.lastname ≠ [] → p.enrollmentId = some eid → 2 ≤ eid.length →
        build_email domain p = .ok (spec_student_identifier p.firstname p.lastname eid domain))
    ∧ (∀ domain : String,
        build_email domain ⟨0, .student, "Ana", "García", none, none, false, none,
          some "2021/045"⟩ = .ok ("agarcia45@" ++ domain)) := by
  refine ⟨by decide, ?_, ?_, fun domain => rfl⟩
  · intro c hc
    have hnone : List.indexOf? c INVALID_CHARACTERS = none := by
      rw [List.indexOf?_eq_none_iff]
      intro x hx hbeq
      exact hc (beq_iff_eq.mp hbeq ▸ hx)
    simp [remove_accent, hnone]
  · intro p domain eid hrole hfn htok heid hlen
    rcases htoks : pyTokens p.lastname with _ | ⟨tok, rest⟩
    · exact absurd htoks htok
    rcases hfd : p.firstname.data with _ | ⟨c, cs⟩
    · exact absurd (String.ext hfd) hfn
    simp only [build_email, htoks, hfd, hrole, heid]
    simp only [spec_student_identifier, htoks, hfd, List.headD_cons]
    rw [remove_all_accents_cons]

/-- Claim C7, witness: the theorem instantiated at Ana García with
enrollment id 2021/045 and domain `d`. -/
theorem claim_C7_witness :
    ("Ana" : String) ≠ "" ∧
      build_email "d" ⟨0, .student, "Ana", "García", none, none, false, none,
        some "2021/045"⟩ =
        .ok (spec_student_identifier "Ana" "García" "2021/045" "d") :=
  ⟨by decide, claim_C7.2.2.1
    ⟨0, .student, "Ana", "García", none, none, false, none, some "2021/045"⟩
    "d" "2021/045" rfl (by decide) (by decide) rfl (by decide)⟩

/-- Claim C8, counterexample.  The claim states identifier generation
fails when a student's enrollment id has fewer than 2 characters; the
code slices `enrollment_id[-2:]`, which on the one-character id `"5"`
simply yields `"5"`, so generation succeeds with `agarcia5@d`. -/
theorem claim_C8_counterexample :
    build_email "d" ⟨0, .student, "Ana", "García", none, none, false, none, some "5"⟩ =
      .ok "agarcia5@d" := rfl

/-- Claim C8, amended.  Identifier generation (for a person whose
student enrollment id is present) fails exactly when the last name has no
whitespace-delimited token or the first name is empty; the length of the
enrollment id never causes a failure, and an empty first name does. -/
theorem claim_C8_amended :
    (∀ (domain : String) (p : Person), p.role = .teacher →
      ((∃ s, build_email domain p = .ok s) ↔ (pyTokens p.lastname ≠ [] ∧ p.firstname ≠ "")))
    ∧ (∀ (domain : String) (p : Person) (eid : String), p.role = .student →
        p.enrollmentId = some eid →
        ((∃ s, build_email domain p = .ok s) ↔
          (pyTokens p.lastname ≠ [] ∧ p.firstname ≠ ""))) := by
  constructor
  · intro domain p hrole
    rcases htoks : pyTokens p.lastname with _ | ⟨tok, rest⟩
    · simp [build_email, htoks]
    rcases hfd : p.firstname.data with _ | ⟨c, cs⟩
    · have : p.firstname = "" := String.ext hfd
      simp [build_email, htoks, hfd, this]
    · have : p.firstname ≠ "" := by
        intro hempty
        rw [hempty] at hfd
        cases hfd
      simp [build_email, htoks, hfd, hrole, this]
  · intro domain p eid hrole heid
    rcases htoks : pyTokens p.lastname with _ | ⟨tok, rest⟩
    · simp [build_email, htoks]
    rcases hfd : p.firstname.data with _ | ⟨c, cs⟩
    · have : p.firstname = "" := String.ext hfd
      simp [build_email, htoks, hfd, this]
    · have : p.firstname ≠ "" := by
        intro hempty
        rw [hempty] at hfd
        cases hfd
      simp [build_email, htoks, hfd, hrole, heid, this]

/-- Claim C8, witness: the amended equivalence instantiated for a student
with a one-character enrollment id (generation succeeds) and for a
teacher with a last name without whitespace tokens (generation fails). -/
theorem claim_C8_witness :
    ((∃ s, build_email "d" ⟨0, .student, "Ana", "García", none, none, false, none,
        some "5"⟩ = .ok s) ↔
      (pyTokens "García" ≠ [] ∧ ("Ana" : String) ≠ ""))
    ∧ ((∃ s, build_email "d" ⟨1, .teacher, "Ana", "", none, none, false, none, none⟩ =
        .ok s) ↔ (pyTokens "" ≠ [] ∧ ("Ana" : String) ≠ "")) :=
  ⟨claim_C8_amended.2 "d"
      ⟨0, .student, "Ana", "García", none, none, false, none, some "5"⟩ "5" rfl rfl,
    claim_C8_amended.1 "d" ⟨1, .teacher, "Ana", "", none, none, false, none, none⟩ rfl⟩

theorem from_google_csv_ok_iff (r : Role) (row : List String) :
    (∃ p, from_google_csv r row = .ok p) ↔ 6 ≤ row.length := by
  by_cases h4 : row.length < MINIMUM_ROWS_GOOGLE_CSV
  · simp only [from_google_csv, if_pos h4]
    simp only [MINIMUM_ROWS_GOOGLE_CSV] at h4
    constructor
    · rintro ⟨p, hp⟩; cases hp
    · intro h6; omega
  · by_cases h6 : 6 ≤ row.length
    · obtain ⟨a0, h0⟩ : ∃ x, row.get? 0 = some x := ⟨_, List.get?_eq_get (by omega)⟩
      obtain ⟨a1, h1⟩ : ∃ x, row.get? 1 = some x := ⟨_, List.get?_eq_get (by omega)⟩
      obtain ⟨a2, h2⟩ : ∃ x, row.get? 2 = some x := ⟨_, List.get?_eq_get (by omega)⟩
      obtain ⟨a5, h5⟩ : ∃ x, row.get? 5 = some x := ⟨_, List.get?_eq_get (by omega)⟩
      simp only [from_google_csv, if_neg h4, h0, h1, h2, h5]
      exact ⟨fun _ => h6, fun _ => ⟨_, rfl⟩⟩
    · have h5 : row.get? 5 = none := List.get?_eq_none.mpr (by omega)
      obtain ⟨a0, h0⟩ : ∃ x, row.get? 0 = some x := ⟨_, List.get?_eq_get (by
        simp only [MINIMUM_ROWS_GOOGLE_CSV] at h4; omega)⟩
      obtain ⟨a1, h1⟩ : ∃ x, row.get? 1 = some x := ⟨_, List.get?_eq_get (by
        simp only [MINIMUM_ROWS_GOOGLE_CSV] at h4; omega)⟩
      obtain ⟨a2, h2⟩ : ∃ x, row.get? 2 = some x := ⟨_, List.get?_eq_get (by
        simp only [MINIMUM_ROWS_GOOGLE_CSV] at h4; omega)⟩
      simp only [from_google_csv, if_neg h4, h0, h1, h2, h5]
      constructor
      · rintro ⟨p, hp⟩; cases hp
      · intro h; omega

/-- Claim C9, counterexample.  The claim states loading succeeds whenever
a row has at least 4 columns.  A row of exactly 4 columns passes the
minimum-column check but then the unguarded read of column 5 fails
(`IndexError`), and through `generate_person_from_google` the same row is
rejected outright because it does not have exactly 35 columns. -/
theorem claim_C9_counterexample :
    from_google_csv .student ["a", "b", "c", "d"] = .error .indexError
      ∧ generate_person_from_google ["a", "b", "c", "d"] = .error (.incorrectCsv 4) :=
  ⟨rfl, rfl⟩

/-- Claim C9, amended.  A row of fewer than 4 columns is rejected by
`from_google_csv` with the error carrying the row's column count, as the
claim says; but loading a row succeeds only when it has at least 6
columns (column 5, the placement, is read unconditionally), and through
`generate_person_from_google` only when it has exactly 35 columns —
otherwise it is rejected with the error carrying the count. -/
theorem claim_C9_amended :
    (∀ (r : Role) (row : List String), row.length < MINIMUM_ROWS_GOOGLE_CSV →
      from_google_csv r row = .error (.incorrectCsv row.length))
    ∧ (∀ (r : Role) (row : List String),
        (∃ p, from_google_csv r row = .ok p) ↔ 6 ≤ row.length)
    ∧ (∀ row : List String, row.length ≠ MAXIMUM_COLS_GOOGLE_CSV →
        generate_person_from_google row = .error (.incorrectCsv row.length))
    ∧ (∀ row : List String, (∃ p, generate_person_from_google row = .ok p) ↔
        row.length = MAXIMUM_COLS_GOOGLE_CSV) := by
  refine ⟨?_, from_google_csv_ok_iff, ?_, ?_⟩
  · intro r row h
    simp only [from_google_csv, if_pos h]
  · intro row h
    simp only [generate_person_from_google, if_pos h]
  · intro row
    by_cases h35 : row.length = MAXIMUM_COLS_GOOGLE_CSV
    · simp only [generate_person_from_google, if_neg (by omega : ¬ row.length ≠ MAXIMUM_COLS_GOOGLE_CSV)]
      by_cases hprof : ((row.getD 5 "").splitOn "/").getLastD "" = "Profesores"
      · rw [if_pos hprof, from_google_csv_ok_iff]
        simp only [MAXIMUM_COLS_GOOGLE_CSV] at h35 ⊢
        omega
      · rw [if_neg hprof, from_google_csv_ok_iff]
        simp only [MAXIMUM_COLS_GOOGLE_CSV] at h35 ⊢
        omega
    · simp only [generate_person_from_google, if_pos h35]
      constructor
      · rintro ⟨p, hp⟩; cases hp
      · intro h; exact absurd h h35

/-- Claim C9, witness: the rejection of a 3-column row with its count,
and the acceptance criterion at a 6-column row. -/
theorem claim_C9_witness :
    from_google_csv .student ["a", "b", "c"] = .error (.incorrectCsv 3)
      ∧ ((∃ p, from_google_csv .teacher ["a", "b", "c", "d", "e", "f"] = .ok p) ↔
          6 ≤ (["a", "b", "c", "d", "e", "f"] : List String).length) :=
  ⟨claim_C9_amended.1 .student ["a", "b", "c"] (by decide),
    claim_C9_amended.2.1 .teacher ["a", "b", "c", "d", "e", "f"]⟩

theorem updDelphos_fields (gs ds : List Person) (d : Person) :
    (updDelphos gs ds d).pid = d.pid ∧ (updDelphos gs ds d).fullname = d.fullname
      ∧ (updDelphos gs ds d).role = d.role ∧ (updDelphos gs ds d).isLost = d.isLost := by
  unfold updDelphos
  cases lastByName gs d.fullname with
  | none => exact ⟨rfl, rfl, rfl, rfl⟩
  | some g =>
    cases lastByName ds d.fullname with
    | none => exact ⟨rfl, rfl, rfl, rfl⟩
    | some d0 =>
      dsimp only
      by_cases hpid : d0.pid = d.pid
      · rw [if_pos hpid]; exact ⟨rfl, rfl, rfl, rfl⟩
      · rw [if_neg hpid]; exact ⟨rfl, rfl, rfl, rfl⟩

theorem lastByName_self {us : List Person} (hn : (us.map Person.fullname).Nodup)
    {u : Person} (hu : u ∈ us) : lastByName us u.fullname = some u := by
  induction us with
  | nil => cases hu
  | cons v vs ih =>
    rw [List.map_cons, List.nodup_cons] at hn
    obtain ⟨hn1, hn2⟩ := hn
    rcases List.mem_cons.mp hu with rfl | hu'
    · have hfilter : vs.filter (fun x => x.fullname == u.fullname) = [] := by
        rw [List.filter_eq_nil_iff]
        intro x hx hbeq
        exact hn1 (List.mem_map.mpr ⟨x, hx, beq_iff_eq.mp hbeq⟩)
      unfold lastByName
      simp only [List.filter_cons, beq_self_eq_true, if_true, hfilter]
      rfl
    · have hne : (v.fullname == u.fullname) = false := by
        rw [beq_eq_false_iff_ne]
        intro heq
        exact hn1 (List.mem_map.mpr ⟨u, hu', heq.symm⟩)
      unfold lastByName
      simp only [List.filter_cons, hne, Bool.false_eq_true, if_false]
      exact ih hn2 hu'

theorem lastByName_mem {us : List Person} {n : String} {u : Person}
    (h : lastByName us n = some u) : u ∈ us ∧ u.fullname = n := by
  unfold lastByName at h
  have hne : us.filter (fun x => x.fullname == n) ≠ [] := by
    intro hnil
    rw [hnil] at h
    cases h
  rw [List.getLast?_eq_getLast _ hne, Option.some.injEq] at h
  have hmem : u ∈ us.filter (fun x => x.fullname == n) := h ▸ List.getLast_mem hne
  have hsp := List.mem_filter.mp hmem
  exact ⟨hsp.1, beq_iff_eq.mp hsp.2⟩

theorem lastByName_eq_none {us : List Person} {n : String}
    (h : ∀ u ∈ us, u.fullname ≠ n) : lastByName us n = none := by
  unfold lastByName
  have : us.filter (fun x => x.fullname == n) = [] := by
    rw [List.filter_eq_nil_iff]
    intro x hx hbeq
    exact h x hx (beq_iff_eq.mp hbeq)
  rw [this]
  rfl

theorem lastByName_none_forall {us : List Person} {n : String}
    (h : lastByName us n = none) : ∀ u ∈ us, u.fullname ≠ n := by
  unfold lastByName at h
  rw [List.getLast?_eq_none_iff] at h
  intro u hu heq
  have hmem : u ∈ us.filter (fun x => x.fullname == n) :=
    List.mem_filter.mpr ⟨hu, beq_iff_eq.mpr heq⟩
  rw [h] at hmem
  cases hmem

theorem dictKeysAux_eq_self :
    ∀ (l seen : List String), l.Nodup → (∀ n ∈ l, n ∉ seen) → dictKeysAux l seen = l := by
  intro l
  induction l with
  | nil => intro seen _ _; rfl
  | cons m ms ih =>
    intro seen hnd hdisj
    rw [List.nodup_cons] at hnd
    have hm : m ∉ seen := hdisj m (List.mem_cons_self m ms)
    simp only [dictKeysAux, hm, if_false]
    rw [ih (m :: seen) hnd.2]
    intro n hn
    intro hmem
    rcases List.mem_cons.mp hmem with rfl | hmem'
    · exact hnd.1 hn
    · exact hdisj n (List.mem_cons_of_mem m hn) hmem'

theorem dictKeys_eq_self {l : List String} (h : l.Nodup) : dictKeys l = l :=
  dictKeysAux_eq_self l [] h (fun n _ hmem => (List.not_mem_nil n) hmem)

theorem filterMap_eq_map_of_forall {α β : Type} {f : α → Option β} {g : α → β} :
    ∀ {l : List α}, (∀ x ∈ l, f x = some (g x)) → l.filterMap f = l.map g := by
  intro l
  induction l with
  | nil => intro _; rfl
  | cons a as ih =>
    intro h
    rw [List.filterMap_cons, h a (List.mem_cons_self a as), List.map_cons,
      ih (fun x hx => h x (List.mem_cons_of_mem a hx))]

theorem csr_google_eq {gs ds : List Person} (hgn : (gs.map Person.fullname).Nodup) :
    csr_google gs ds = gs.map (fun g =>
      match lastByName ds g.fullname with
      | some d0 => updDelphos gs ds d0
      | none => { g with isLost := true }) := by
  unfold csr_google
  rw [dictKeys_eq_self hgn, List.filterMap_map]
  apply filterMap_eq_map_of_forall
  intro g hg
  show (match lastByName ds g.fullname with
    | some d0 => some (updDelphos gs ds d0)
    | none => (lastByName gs g.fullname).map (fun x : Person => { x with isLost := true })) = _
  cases hd : lastByName ds g.fullname with
  | some d0 => rfl
  | none =>
    show (lastByName gs g.fullname).map (fun x : Person => { x with isLost := true }) = _
    rw [lastByName_self hgn hg]
    rfl

theorem csr_mem_matched {gs ds : List Person} {d : Person}
    (hgn : (gs.map Person.fullname).Nodup) (hdn : (ds.map Person.fullname).Nodup)
    (hd : d ∈ ds) {g : Person} (hg : g ∈ gs) (hgf : g.fullname = d.fullname) :
    updDelphos gs ds d ∈ csr_google gs ds := by
  rw [csr_google_eq hgn]
  apply List.mem_map.mpr
  refine ⟨g, hg, ?_⟩
  rw [hgf, lastByName_self hdn hd]

theorem csr_mem_lost {gs ds : List Person} {g : Person}
    (hgn : (gs.map Person.fullname).Nodup) (hg : g ∈ gs)
    (hnm : ∀ d ∈ ds, d.fullname ≠ g.fullname) :
    { g with isLost := true } ∈ csr_google gs ds := by
  rw [csr_google_eq hgn]
  apply List.mem_map.mpr
  refine ⟨g, hg, ?_⟩
  rw [lastByName_eq_none hnm]

theorem csr_mem_inv {gs ds : List Person} {x : Person}
    (hgn : (gs.map Person.fullname).Nodup) (hx : x ∈ csr_google gs ds) :
    (∃ d ∈ ds, (∃ g ∈ gs, g.fullname = d.fullname) ∧ x = updDelphos gs ds d) ∨
      (∃ g ∈ gs, (∀ d ∈ ds, d.fullname ≠ g.fullname) ∧ x = { g with isLost := true }) := by
  rw [csr_google_eq hgn] at hx
  obtain ⟨g, hg, heq⟩ := List.mem_map.mp hx
  cases hd : lastByName ds g.fullname with
  | some d0 =>
    left
    obtain ⟨hd0, hd0f⟩ := lastByName_mem hd
    rw [hd] at heq
    exact ⟨d0, hd0, ⟨g, hg, hd0f.symm⟩, heq.symm⟩
  | none =>
    right
    rw [hd] at heq
    exact ⟨g, hg, lastByName_none_forall hd, heq.symm⟩

theorem generate_lost_users_mem {ctx : SchoolContext} {users : List Person}
    {org_path : String} {x : Person} (hx : x ∈ generate_lost_users ctx users org_path) :
    ∃ g ∈ ctx.allGoogleUsers, g.isLost = true ∧
      x = { g with orgPathUnit := some (ctx.orgPathUnit ++ org_path) } := by
  cases users with
  | nil => cases hx
  | cons u us =>
    simp only [generate_lost_users] at hx
    obtain ⟨g, hgf, heq⟩ := List.mem_map.mp hx
    obtain ⟨hgmem, hcond⟩ := List.mem_filter.mp hgf
    rw [Bool.and_eq_true] at hcond
    exact ⟨g, hgmem, hcond.2, heq.symm⟩

theorem generate_lost_users_mem_of {ctx : SchoolContext} {u : Person} {us : List Person}
    {org_path : String} {g : Person} (hg : g ∈ ctx.allGoogleUsers)
    (hrole : g.role = u.role) (hlost : g.isLost = true) :
    { g with orgPathUnit := some (ctx.orgPathUnit ++ org_path) } ∈
      generate_lost_users ctx (u :: us) org_path := by
  simp only [generate_lost_users]
  apply List.mem_map.mpr
  refine ⟨g, List.mem_filter.mpr ⟨hg, ?_⟩, rfl⟩
  rw [Bool.and_eq_true, hrole, hlost]
  exact ⟨beq_self_eq_true u.role, rfl⟩

/-- Claim C1, amended.  Reconciliation partition, for a nonempty incoming
batch whose records all have the snapshot accounts' variant, with
duplicate-free full names in each dataset, disjoint object identities,
and freshly loaded batch records (is_lost unset): every incoming record
whose full name matches a snapshot account receives that account's email
and organizational path and appears in neither the created selection nor
the orphaned output, and every snapshot account matching no incoming
record is marked lost and appears in the orphaned output with its
organizational path relocated under the lost-users suffix. -/
theorem claim_C1_amended
    (ctx : SchoolContext) (ds : List Person) (r : Role) (org_path : String)
    (hgn : (ctx.allGoogleUsers.map Person.fullname).Nodup)
    (hdn : (ds.map Person.fullname).Nodup)
    (hpid : ∀ g ∈ ctx.allGoogleUsers, ∀ d ∈ ds, g.pid ≠ d.pid)
    (hgr : ∀ g ∈ ctx.allGoogleUsers, g.role = r)
    (hdr : ∀ d ∈ ds, d.role = r)
    (hlost : ∀ d ∈ ds, d.isLost = false)
    (hne : ds ≠ []) :
    (∀ d' ∈ (create_single_reference ctx ds).2,
      d'.fullname ∈ ctx.allGoogleUsers.map Person.fullname →
        (∃ g ∈ ctx.allGoogleUsers, g.fullname = d'.fullname ∧ d'.email = g.email ∧
          d'.orgPathUnit = g.orgPathUnit)
        ∧ (∀ x ∈ new_filter (create_single_reference ctx ds).1.allGoogleUsers
            (create_single_reference ctx ds).2, x.pid ≠ d'.pid)
        ∧ (∀ x ∈ generate_lost_users (create_single_reference ctx ds).1
            (create_single_reference ctx ds).2 org_path, x.pid ≠ d'.pid))
    ∧ (∀ g ∈ ctx.allGoogleUsers, g.fullname ∉ ds.map Person.fullname →
        (∃ g' ∈ (create_single_reference ctx ds).1.allGoogleUsers,
          g'.pid = g.pid ∧ g'.isLost = true)
        ∧ (∃ x ∈ generate_lost_users (create_single_reference ctx ds).1
            (create_single_reference ctx ds).2 org_path,
            x.pid = g.pid ∧ x.orgPathUnit = some (ctx.orgPathUnit ++ org_path))) := by
  have hds2 : (create_single_reference ctx ds).2 =
    ds.map (updDelphos ctx.allGoogleUsers ds) := rfl
  have hgs2 : (create_single_reference ctx ds).1.allGoogleUsers =
    csr_google ctx.allGoogleUsers ds := rfl
  constructor
  · intro d' hd' hmatch
    rw [hds2] at hd'
    obtain ⟨d, hd, hdeq⟩ := List.mem_map.mp hd'
    obtain ⟨hdpid, hdfull, hdrole, hdlost⟩ := updDelphos_fields ctx.allGoogleUsers ds d
    rw [← hdeq] at hmatch ⊢
    rw [hdfull] at hmatch
    obtain ⟨g, hg, hgf⟩ := List.mem_map.mp hmatch
    have hlg : lastByName ctx.allGoogleUsers d.fullname = some g := by
      rw [← hgf]; exact lastByName_self hgn hg
    have hld : lastByName ds d.fullname = some d := lastByName_self hdn hd
    have hupd : updDelphos ctx.allGoogleUsers ds d =
        { d with email := g.email, orgPathUnit := g.orgPathUnit } := by
      unfold updDelphos
      rw [hlg, hld]
      simp
    have hmemcsr : updDelphos ctx.allGoogleUsers ds d ∈ csr_google ctx.allGoogleUsers ds :=
      csr_mem_matched hgn hdn hd hg hgf
    refine ⟨⟨g, hg, ?_, ?_, ?_⟩, ?_, ?_⟩
    · rw [hdfull, hgf]
    · rw [hupd]
    · rw [hupd]
    · intro x hx
      obtain ⟨hxmem, hxcond⟩ := List.mem_filter.mp hx
      rw [Bool.not_eq_true', List.any_eq_false] at hxcond
      have hnope := hxcond (updDelphos ctx.allGoogleUsers ds d) (hgs2 ▸ hmemcsr)
      intro heq
      exact hnope (beq_iff_eq.mpr heq.symm)
    · intro x hx
      obtain ⟨g', hg', hg'lost, hxeq⟩ := generate_lost_users_mem hx
      rw [hgs2] at hg'
      rcases csr_mem_inv hgn hg' with ⟨d1, hd1, _, hg'eq⟩ | ⟨g1, hg1, _, hg'eq⟩
      · exfalso
        obtain ⟨_, _, _, hlost1⟩ := updDelphos_fields ctx.allGoogleUsers ds d1
        rw [hg'eq] at hg'lost
        rw [hlost1, hlost d1 hd1] at hg'lost
        cases hg'lost
      · intro hpe
        have hxpid : x.pid = g1.pid := by rw [hxeq, hg'eq]
        rw [hxpid, hdpid] at hpe
        exact hpid g1 hg1 d hd hpe
  · intro g hg hnm
    have hnm' : ∀ d ∈ ds, d.fullname ≠ g.fullname :=
      fun d hd heq => hnm (List.mem_map.mpr ⟨d, hd, heq⟩)
    have hmemlost : { g with isLost := true } ∈ csr_google ctx.allGoogleUsers ds :=
      csr_mem_lost hgn hg hnm'
    refine ⟨⟨{ g with isLost := true }, hgs2 ▸ hmemlost, rfl, rfl⟩, ?_⟩
    cases hds : ds with
    | nil => exact absurd hds hne
    | cons d0 drest =>
      rw [← hds]
      have hrole0 : (updDelphos ctx.allGoogleUsers ds d0).role = r := by
        obtain ⟨_, _, hrole, _⟩ := updDelphos_fields ctx.allGoogleUsers ds d0
        rw [hrole]
        exact hdr d0 (hds ▸ List.mem_cons_self d0 drest)
      have hgrole : ({ g with isLost := true } : Person).role =
          (updDelphos ctx.allGoogleUsers ds d0).role := by
        rw [hrole0]
        exact hgr g hg
      have hmem := @generate_lost_users_mem_of (create_single_reference ctx ds).1
        (updDelphos ctx.allGoogleUsers ds d0) (drest.map (updDelphos ctx.allGoogleUsers ds))
        org_path { g with isLost := true } ((hgs2.symm) ▸ hmemlost) hgrole rfl
      have husers : (create_single_reference ctx ds).2 =
          updDelphos ctx.allGoogleUsers ds d0 ::
            drest.map (updDelphos ctx.allGoogleUsers ds) := by
        rw [hds2, hds, List.map_cons]
      refine ⟨{ g with isLost := true, orgPathUnit := some (ctx.orgPathUnit ++ org_path) }, ?_, rfl, rfl⟩
      rw [husers]
      exact hmem

/-- Claim C1, counterexample.  The claim quantifies over every incoming
batch, but when the batch is empty the orphan pass returns immediately:
after reconciliation the unmatched snapshot account is marked lost, yet
the orphaned output is empty, so the account does not appear in it with a
relocated path as the claim requires. -/
theorem claim_C1_counterexample :
    (∃ g' ∈ (create_single_reference (⟨[], [⟨1, .student, "Luis", "Pérez", some "lperez01@d", some "/Old/1-A", false, none, none⟩], "d", "/Curso 2021-2022/", "2021"⟩ : SchoolContext) ([] : List Person)).1.allGoogleUsers,
      g'.isLost = true)
    ∧ generate_lost_users (create_single_reference (⟨[], [⟨1, .student, "Luis", "Pérez", some "lperez01@d", some "/Old/1-A", false, none, none⟩], "d", "/Curso 2021-2022/", "2021"⟩ : SchoolContext) ([] : List Person)).1
        (create_single_reference (⟨[], [⟨1, .student, "Luis", "Pérez", some "lperez01@d", some "/Old/1-A", false, none, none⟩], "d", "/Curso 2021-2022/", "2021"⟩ : SchoolContext) ([] : List Person)).2 "Bajas/Alumnos" = [] := by
  constructor
  · decide
  · rfl

/-- Claim C1, witness for the amended theorem: a concrete snapshot of two
student accounts and a batch matching one of them; the theorem's orphan
conjunct is produced with every hypothesis discharged by computation. -/
theorem claim_C1_witness :
    (∃ g' ∈ (create_single_reference (⟨[], [⟨1, .student, "Luis", "Pérez", some "lperez01@d", some "/Old/1-A", false, none, none⟩, ⟨2, .student, "Eva", "Sanz", some "esanz21@d", some "/Old/1-B", false, none, none⟩], "d", "/Curso 2021-2022/", "2021"⟩ : SchoolContext) ([⟨10, .student, "Luis", "Pérez", none, none, false, some "1-A", some "2021/010"⟩, ⟨11, .student, "Ana", "García", none, none, false, some "1-A", some "2021/045"⟩] : List Person)).1.allGoogleUsers,
      g'.pid = (⟨2, .student, "Eva", "Sanz", some "esanz21@d", some "/Old/1-B", false, none, none⟩ : Person).pid ∧ g'.isLost = true)
    ∧ (∃ x ∈ generate_lost_users (create_single_reference (⟨[], [⟨1, .student, "Luis", "Pérez", some "lperez01@d", some "/Old/1-A", false, none, none⟩, ⟨2, .student, "Eva", "Sanz", some "esanz21@d", some "/Old/1-B", false, none, none⟩], "d", "/Curso 2021-2022/", "2021"⟩ : SchoolContext) ([⟨10, .student, "Luis", "Pérez", none, none, false, some "1-A", some "2021/010"⟩, ⟨11, .student, "Ana", "García", none, none, false, some "1-A", some "2021/045"⟩] : List Person)).1
        (create_single_reference (⟨[], [⟨1, .student, "Luis", "Pérez", some "lperez01@d", some "/Old/1-A", false, none, none⟩, ⟨2, .student, "Eva", "Sanz", some "esanz21@d", some "/Old/1-B", false, none, none⟩], "d", "/Curso 2021-2022/", "2021"⟩ : SchoolContext) ([⟨10, .student, "Luis", "Pérez", none, none, false, some "1-A", some "2021/010"⟩, ⟨11, .student, "Ana", "García", none, none, false, some "1-A", some "2021/045"⟩] : List Person)).2 "Bajas/Alumnos",
        x.pid = (⟨2, .student, "Eva", "Sanz", some "esanz21@d", some "/Old/1-B", false, none, none⟩ : Person).pid ∧ x.orgPathUnit = some ((⟨[], [⟨1, .student, "Luis", "Pérez", some "lperez01@d", some "/Old/1-A", false, none, none⟩, ⟨2, .student, "Eva", "Sanz", some "esanz21@d", some "/Old/1-B", false, none, none⟩], "d", "/Curso 2021-2022/", "2021"⟩ : SchoolContext).orgPathUnit ++ "Bajas/Alumnos")) :=
  (claim_C1_amended (⟨[], [⟨1, .student, "Luis", "Pérez", some "lperez01@d", some "/Old/1-A", false, none, none⟩, ⟨2, .student, "Eva", "Sanz", some "esanz21@d", some "/Old/1-B", false, none, none⟩], "d", "/Curso 2021-2022/", "2021"⟩ : SchoolContext) ([⟨10, .student, "Luis", "Pérez", none, none, false, some "1-A", some "2021/010"⟩, ⟨11, .student, "Ana", "García", none, none, false, some "1-A", some "2021/045"⟩] : List Person) .student "Bajas/Alumnos" (by decide) (by decide) (by decide)
    (by decide) (by decide) (by decide) (by decide)).2 (⟨2, .student, "Eva", "Sanz", some "esanz21@d", some "/Old/1-B", false, none, none⟩ : Person) (by decide) (by decide)

theorem process_new_users_shape {domain orgPath : String} {fuel : Nat} :
    ∀ {ps cs : List Person} {used used' : List String},
      process_new_users domain orgPath fuel ps used = .ok (cs, used') →
      cs.map Person.pid = ps.map Person.pid
        ∧ cs.map Person.fullname = ps.map Person.fullname := by
  intro ps
  induction ps with
  | nil =>
    intro cs used used' h
    simp only [process_new_users] at h
    obtain ⟨hc, _⟩ := Prod.mk.injEq .. ▸ (Except.ok.injEq .. ▸ h)
    subst hc
    exact ⟨rfl, rfl⟩
  | cons p ps ih =>
    intro cs used used' h
    simp only [process_new_users] at h
    cases hb : build_email domain p with
    | error e => rw [hb] at h; cases h
    | ok e0 =>
      simp only [hb] at h
      cases hc : change_email_if_needed p.role fuel e0 used with
      | error e => simp only [hc] at h; cases h
      | ok pair =>
        obtain ⟨e1, u1⟩ := pair
        simp only [hc] at h
        cases hrec : process_new_users domain orgPath fuel ps u1 with
        | error e => simp only [hrec] at h; cases h
        | ok pair2 =>
          obtain ⟨rest, u2⟩ := pair2
          simp only [hrec] at h
          obtain ⟨hcreated, _⟩ := Prod.mk.injEq .. ▸ (Except.ok.injEq .. ▸ h)
          subst hcreated
          obtain ⟨ihp, ihn⟩ := ih hrec
          constructor
          · rw [List.map_cons, List.map_cons, ihp]
          · rw [List.map_cons, List.map_cons, ihn]
            rfl

theorem new_filter_unmatched_mem {gs ds : List Person} {d : Person}
    (hgn : (gs.map Person.fullname).Nodup) (hdp : (ds.map Person.pid).Nodup)
    (hpid : ∀ g ∈ gs, ∀ d0 ∈ ds, g.pid ≠ d0.pid) (hd : d ∈ ds)
    (hnm : d.fullname ∉ gs.map Person.fullname) :
    d ∈ new_filter (csr_google gs ds) (ds.map (updDelphos gs ds)) := by
  have hlg : lastByName gs d.fullname = none :=
    lastByName_eq_none (fun u hu heq => hnm (List.mem_map.mpr ⟨u, hu, heq⟩))
  have hupd : updDelphos gs ds d = d := by
    unfold updDelphos
    rw [hlg]
  apply List.mem_filter.mpr
  refine ⟨List.mem_map.mpr ⟨d, hd, hupd⟩, ?_⟩
  rw [Bool.not_eq_true', List.any_eq_false]
  intro y hy
  intro htrue
  have hpeq : y.pid = d.pid := beq_iff_eq.mp htrue
  rcases csr_mem_inv hgn hy with ⟨d1, hd1, ⟨g, hg, hgf⟩, hyeq⟩ | ⟨g1, hg1, _, hyeq⟩
  · have hy1 : y.pid = d1.pid := by
      rw [hyeq]
      exact (updDelphos_fields gs ds d1).1
    have : d1 = d := List.inj_on_of_nodup_map hdp hd1 hd (by rw [← hy1, hpeq])
    subst this
    exact hnm (List.mem_map.mpr ⟨g, hg, hgf⟩)
  · have hy1 : y.pid = g1.pid := by rw [hyeq]
    exact hpid g1 hg1 d hd (by rw [← hy1, hpeq])

theorem new_filter_mem_unmatched {gs ds : List Person} {x : Person}
    (hgn : (gs.map Person.fullname).Nodup) (hdn : (ds.map Person.fullname).Nodup)
    (hx : x ∈ new_filter (csr_google gs ds) (ds.map (updDelphos gs ds))) :
    ∃ d ∈ ds, x = updDelphos gs ds d ∧ d.fullname ∉ gs.map Person.fullname := by
  obtain ⟨hxmem, hxcond⟩ := List.mem_filter.mp hx
  obtain ⟨d, hd, hdeq⟩ := List.mem_map.mp hxmem
  refine ⟨d, hd, hdeq.symm, ?_⟩
  intro hmatch
  obtain ⟨g, hg, hgf⟩ := List.mem_map.mp hmatch
  have hmem : updDelphos gs ds d ∈ csr_google gs ds := csr_mem_matched hgn hdn hd hg hgf
  rw [Bool.not_eq_true', List.any_eq_false] at hxcond
  have := hxcond (updDelphos gs ds d) hmem
  rw [hdeq, beq_self_eq_true] at this
  exact this rfl

/-- Claim C6.  Idempotence across runs: when the snapshot is extended with
the accounts created by a completed first run on the same source batch,
a second reconciliation of that batch matches every record by name, so
the new-record selection is empty (nothing is created a second time and
no collision resolution runs) and every record carries exactly the email
and organizational path recorded in the extended snapshot — the
identifiers of the first run. -/
theorem claim_C6
    (ctx : SchoolContext) (ds : List Person) (org_path : String) (fuel : Nat)
    (cs₁ : List Person) (used₁ : List String)
    (hgn : (ctx.allGoogleUsers.map Person.fullname).Nodup)
    (hdn : (ds.map Person.fullname).Nodup)
    (hdp : (ds.map Person.pid).Nodup)
    (hpid : ∀ g ∈ ctx.allGoogleUsers, ∀ d ∈ ds, g.pid ≠ d.pid)
    (hrun : generate_new_students (create_single_reference ctx ds).1
      (create_single_reference ctx ds).2 org_path fuel
      (all_emails (create_single_reference ctx ds).1) = .ok (cs₁, used₁)) :
    new_filter
        (create_single_reference { ctx with allGoogleUsers := ctx.allGoogleUsers ++ cs₁ }
          ds).1.allGoogleUsers
        (create_single_reference { ctx with allGoogleUsers := ctx.allGoogleUsers ++ cs₁ }
          ds).2 = []
    ∧ ∀ d' ∈ (create_single_reference { ctx with allGoogleUsers := ctx.allGoogleUsers ++ cs₁ }
        ds).2,
        ∃ g ∈ ctx.allGoogleUsers ++ cs₁, g.fullname = d'.fullname ∧ d'.email = g.email
          ∧ d'.orgPathUnit = g.orgPathUnit := by
  have hrun' : process_new_users ctx.domain (ctx.orgPathUnit ++ org_path) fuel
      (new_filter (csr_google ctx.allGoogleUsers ds)
        (ds.map (updDelphos ctx.allGoogleUsers ds)))
      (all_emails (create_single_reference ctx ds).1) = .ok (cs₁, used₁) := hrun
  obtain ⟨hpids, hnames⟩ := process_new_users_shape hrun'
  have hcover : ∀ d ∈ ds, d.fullname ∉ ctx.allGoogleUsers.map Person.fullname →
      d.fullname ∈ cs₁.map Person.fullname := by
    intro d hd hnm
    rw [hnames]
    exact List.mem_map.mpr ⟨d, new_filter_unmatched_mem hgn hdp hpid hd hnm, rfl⟩
  have hsound : ∀ n ∈ cs₁.map Person.fullname,
      n ∈ ds.map Person.fullname ∧ n ∉ ctx.allGoogleUsers.map Person.fullname := by
    intro n hn
    rw [hnames] at hn
    obtain ⟨x, hx, hxn⟩ := List.mem_map.mp hn
    obtain ⟨d, hd, hxeq, hnm⟩ := new_filter_mem_unmatched hgn hdn hx
    have hxfull : x.fullname = d.fullname := by
      rw [hxeq]
      exact (updDelphos_fields ctx.allGoogleUsers ds d).2.1
    rw [← hxn, hxfull]
    exact ⟨List.mem_map.mpr ⟨d, hd, rfl⟩, hnm⟩
  have hnodup1 : (cs₁.map Person.fullname).Nodup := by
    rw [hnames]
    have hsub : (new_filter (csr_google ctx.allGoogleUsers ds)
        (ds.map (updDelphos ctx.allGoogleUsers ds))).Sublist
        (ds.map (updDelphos ctx.allGoogleUsers ds)) := List.filter_sublist _
    have hmapeq : (ds.map (updDelphos ctx.allGoogleUsers ds)).map Person.fullname =
        ds.map Person.fullname := by
      rw [List.map_map]
      exact List.map_congr_left
        (fun d _ => (updDelphos_fields ctx.allGoogleUsers ds d).2.1)
    have := hsub.map Person.fullname
    rw [hmapeq] at this
    exact this.nodup hdn
  have hg2n : (((ctx.allGoogleUsers ++ cs₁).map Person.fullname)).Nodup := by
    rw [List.map_append, List.nodup_append]
    refine ⟨hgn, hnodup1, ?_⟩
    rw [List.disjoint_left]
    intro n h1 h2
    exact (hsound n h2).2 h1
  have hall : ∀ d ∈ ds, d.fullname ∈ (ctx.allGoogleUsers ++ cs₁).map Person.fullname := by
    intro d hd
    rw [List.map_append, List.mem_append]
    by_cases hm : d.fullname ∈ ctx.allGoogleUsers.map Person.fullname
    · exact Or.inl hm
    · exact Or.inr (hcover d hd hm)
  have hds2' : (create_single_reference
      { ctx with allGoogleUsers := ctx.allGoogleUsers ++ cs₁ } ds).2 =
      ds.map (updDelphos (ctx.allGoogleUsers ++ cs₁) ds) := rfl
  have hmatched : ∀ d ∈ ds, ∃ g ∈ ctx.allGoogleUsers ++ cs₁, g.fullname = d.fullname := by
    intro d hd
    obtain ⟨g, hg, hgf⟩ := List.mem_map.mp (hall d hd)
    exact ⟨g, hg, hgf⟩
  constructor
  · show (ds.map (updDelphos (ctx.allGoogleUsers ++ cs₁) ds)).filter _ = []
    rw [List.filter_eq_nil_iff]
    intro x hx hcond
    obtain ⟨d, hd, hdeq⟩ := List.mem_map.mp hx
    obtain ⟨g2, hg2, hg2f⟩ := hmatched d hd
    have hmem : updDelphos (ctx.allGoogleUsers ++ cs₁) ds d ∈
        csr_google (ctx.allGoogleUsers ++ cs₁) ds :=
      csr_mem_matched hg2n hdn hd hg2 hg2f
    rw [Bool.not_eq_true', List.any_eq_false] at hcond
    have := hcond (updDelphos (ctx.allGoogleUsers ++ cs₁) ds d) hmem
    rw [hdeq, beq_self_eq_true] at this
    exact this rfl
  · intro d' hd'
    rw [hds2'] at hd'
    obtain ⟨d, hd, hdeq⟩ := List.mem_map.mp hd'
    obtain ⟨g2, hg2, hg2f⟩ := hmatched d hd
    have hlg : lastByName (ctx.allGoogleUsers ++ cs₁) d.fullname = some g2 := by
      rw [← hg2f]
      exact lastByName_self hg2n hg2
    have hld : lastByName ds d.fullname = some d := lastByName_self hdn hd
    have hupd : updDelphos (ctx.allGoogleUsers ++ cs₁) ds d =
        { d with email := g2.email, orgPathUnit := g2.orgPathUnit } := by
      unfold updDelphos
      rw [hlg, hld]
      simp
    rw [← hdeq]
    refine ⟨g2, hg2, ?_, ?_, ?_⟩
    · rw [(updDelphos_fields (ctx.allGoogleUsers ++ cs₁) ds d).2.1, hg2f]
    · rw [hupd]
    · rw [hupd]

/-- Claim C6, witness: a concrete snapshot and batch; the first run
creates `agarcia45@d`, and the theorem applied to that completed run
shows the second run's new-record selection is empty. -/
theorem claim_C6_witness :
    new_filter (create_single_reference { (⟨[], [⟨1, .student, "Eva", "Sanz", some "esanz21@d", some "/Old/1-A", false, none, none⟩], "d", "/Curso 2021-2022/", "2021"⟩ : SchoolContext) with allGoogleUsers := (⟨[], [⟨1, .student, "Eva", "Sanz", some "esanz21@d", some "/Old/1-A", false, none, none⟩], "d", "/Curso 2021-2022/", "2021"⟩ : SchoolContext).allGoogleUsers ++ ([⟨11, .student, "Ana", "García", some "agarcia45@d", some "/Curso 2021-2022/1-A", false, some "1-A", some "2021/045"⟩] : List Person) } ([⟨10, .student, "Eva", "Sanz", none, none, false, some "1-A", some "2021/021"⟩, ⟨11, .student, "Ana", "García", none, none, false, some "1-A", some "2021/045"⟩] : List Person)).1.allGoogleUsers
      (create_single_reference { (⟨[], [⟨1, .student, "Eva", "Sanz", some "esanz21@d", some "/Old/1-A", false, none, none⟩], "d", "/Curso 2021-2022/", "2021"⟩ : SchoolContext) with allGoogleUsers := (⟨[], [⟨1, .student, "Eva", "Sanz", some "esanz21@d", some "/Old/1-A", false, none, none⟩], "d", "/Curso 2021-2022/", "2021"⟩ : SchoolContext).allGoogleUsers ++ ([⟨11, .student, "Ana", "García", some "agarcia45@d", some "/Curso 2021-2022/1-A", false, some "1-A", some "2021/045"⟩] : List Person) } ([⟨10, .student, "Eva", "Sanz", none, none, false, some "1-A", some "2021/021"⟩, ⟨11, .student, "Ana", "García", none, none, false, some "1-A", some "2021/045"⟩] : List Person)).2 = [] :=
  (claim_C6 (⟨[], [⟨1, .student, "Eva", "Sanz", some "esanz21@d", some "/Old/1-A", false, none, none⟩], "d", "/Curso 2021-2022/", "2021"⟩ : SchoolContext) ([⟨10, .student, "Eva", "Sanz", none, none, false, some "1-A", some "2021/021"⟩, ⟨11, .student, "Ana", "García", none, none, false, some "1-A", some "2021/045"⟩] : List Person) "1-A" 5 ([⟨11, .student, "Ana", "García", some "agarcia45@d", some "/Curso 2021-2022/1-A", false, some "1-A", some "2021/045"⟩] : List Person) ["agarcia45@d", "esanz21@d"] (by decide) (by decide)
    (by decide) (by decide) (by rfl)).1
